import Mathlib

/-!
Verification development for the agent training-loop infrastructure of the
`pything/agent` repository: the epsilon exploration scheduler and action
sampling of `ValueAgent` (value_agent.py), the shape inference of
`Agent.build` (agent.py), the per-episode rollout loops
(actor_critic_agent.py / evo_agent.py), the episodic training driver
(episodically.py), and the replay memory and value-update target that the
specification describes.
-/

/-- Exploration schedule parameters, from `ExplorationSpecification(start, end, decay)`
as used in `ValueAgent.__init__` (value_agent.py line 30).  The Python field
`end` is a reserved word in Lean, hence the quoted field name. -/
structure ExplorationSpecification where
  start : ℝ
  «end» : ℝ
  decay : ℝ

/-- The epsilon threshold assigned to `self._current_eps_threshold` in
`ValueAgent.epsilon_random_exploration` (value_agent.py lines 88-91):
`end + (start - end) * exp(-1. * steps_taken / (decay + divide_by_zero_safety))`. -/
noncomputable def eps_threshold (spec : ExplorationSpecification) (safety t : ℝ) : ℝ :=
  spec.«end» + (spec.start - spec.«end») * Real.exp (-1 * t / (spec.decay + safety))

/-- Return value of `ValueAgent.epsilon_random_exploration(steps_taken)`
(value_agent.py lines 76-93): `False` when `steps_taken == 0`, otherwise the
comparison `sample > self._current_eps_threshold` where `sample` is the uniform
`[0,1)` draw `random.random()`.  The draw is made explicit as the `sample`
argument. -/
def epsilon_random_exploration (spec : ExplorationSpecification) (safety : ℝ)
    (steps_taken : ℕ) (sample : ℝ) : Prop :=
  steps_taken ≠ 0 ∧ sample > eps_threshold spec safety (steps_taken : ℝ)

/-- Branch condition of `ValueAgent.sample` (value_agent.py lines 50-55): the
method returns the greedy `self._sample_model(state)` action exactly when
`(s and self._step_i > self._initial_observation_period) or disallow_random_sample`
holds, where `s` is the value of `epsilon_random_exploration(self._step_i)` and
`step_i` is the already-incremented step counter; otherwise it returns the
random-exploration action `self._sample_random_process(state)`. -/
def sample_returns_model (spec : ExplorationSpecification) (safety : ℝ)
    (initial_observation_period : ℕ) (disallow_random_sample : Bool)
    (step_i : ℕ) (sample : ℝ) : Prop :=
  (epsilon_random_exploration spec safety step_i sample ∧
      step_i > initial_observation_period) ∨
    disallow_random_sample = true

/-- Value of an agent's `_input_shape` / `_output_shape` attribute as tested by
`Agent._maybe_infer_input_output_shapes` (agent.py lines 154-176): `None`,
the integer `-1`, or an inferred tuple of dimensions. -/
inductive ShapeField where
  | unset
  | minusOne
  | dims (l : List ℕ)
deriving DecidableEq, Repr

/-- Observation-space descriptor of the environment as read by
`Agent._maybe_infer_input_output_shapes`: its `shape` tuple and the discrete
count `observation_space.space.n` used when the shape tuple is empty. -/
structure EnvObservationSpace where
  shape : List ℕ
  n : ℕ
deriving DecidableEq, Repr

/-- Action-space descriptor of the environment as read by
`Agent._maybe_infer_input_output_shapes`: either a neodroid `ActionSpace`
(with `is_discrete`, `num_discrete_actions` and `n`) or a generic space with a
`shape` tuple and a discrete count `n`. -/
inductive EnvActionSpace where
  | actionSpace (is_discrete : Bool) (num_discrete_actions : ℕ) (n : ℕ)
  | generic (shape : List ℕ) (n : ℕ)
deriving DecidableEq, Repr

/-- The environment descriptors queried once by `Agent.build`. -/
structure EnvSpec where
  observation_space : EnvObservationSpace
  action_space : EnvActionSpace
deriving DecidableEq, Repr

/-- The two shape attributes `Agent.build` infers. -/
structure AgentShapes where
  input_shape : ShapeField
  output_shape : ShapeField
deriving DecidableEq, Repr

/-- Input-shape branch of `Agent._maybe_infer_input_output_shapes` (agent.py
lines 161-165): infer only when the current value is `None` or `-1`; use the
observation space's shape when it has at least one dimension, else
`(observation_space.space.n, 1)`. -/
def infer_input_shape (cur : ShapeField) (env : EnvSpec) : ShapeField :=
  if cur = .unset ∨ cur = .minusOne then
    if env.observation_space.shape.length ≥ 1 then .dims env.observation_space.shape
    else .dims [env.observation_space.n, 1]
  else cur

/-- Output-shape branch of `Agent._maybe_infer_input_output_shapes` (agent.py
lines 167-176): infer only when the current value is `None` or `-1`; a neodroid
`ActionSpace` gives `(num_discrete_actions, 1)` when discrete and `(n, 1)`
otherwise, a generic space gives its shape tuple when non-empty and `(n, 1)`
otherwise. -/
def infer_output_shape (cur : ShapeField) (env : EnvSpec) : ShapeField :=
  if cur = .unset ∨ cur = .minusOne then
    match env.action_space with
    | .actionSpace true num_discrete _ => .dims [num_discrete, 1]
    | .actionSpace false _ n => .dims [n, 1]
    | .generic shape n =>
        if shape.length ≥ 1 then .dims shape else .dims [n, 1]
  else cur

/-- `Agent._maybe_infer_input_output_shapes(env)` (agent.py lines 154-176),
reached from `Agent.build` via `_maybe_infer_sizes`: both shape attributes are
updated by their inference branches.  The method raises nothing, so it is a
total function on the shape state. -/
def maybe_infer_input_output_shapes (a : AgentShapes) (env : EnvSpec) : AgentShapes :=
  ⟨infer_input_shape a.input_shape env, infer_output_shape a.output_shape env⟩

/-- The fields of a `ValueAgent` instance touched by or visible around
`ValueAgent.sample`: the shared `Agent` fields `_input_shape`, `_output_shape`,
`_step_i`, `_rollout_i`, `_end_training`, `_divide_by_zero_safety`
(agent.py lines 34-39) and the `ValueAgent` fields `_exploration_spec`,
`_initial_observation_period`, `_value_model` and `_current_eps_threshold`
(value_agent.py lines 29-36 and 91).  The model is abstracted as a value of an
arbitrary type `M`. -/
structure ValueAgentState (M : Type) where
  input_shape : ShapeField
  output_shape : ShapeField
  step_i : ℕ
  rollout_i : ℕ
  end_training : Bool
  divide_by_zero_safety : ℝ
  exploration_spec : ExplorationSpecification
  initial_observation_period : ℕ
  current_eps_threshold : ℝ
  value_model : M

/-- State mutation performed by one call of `ValueAgent.sample`
(value_agent.py lines 40-55): `self._step_i += 1`, then
`epsilon_random_exploration(self._step_i)` writes
`self._current_eps_threshold` (unless its early `steps_taken == 0` return
fires, which cannot happen for the incremented counter).  The uniform draw
`sample` decides only which action is returned, not the successor state. -/
noncomputable def value_agent_sample_step {M : Type} (s : ValueAgentState M)
    (_sample : ℝ) : ValueAgentState M :=
  { s with
    step_i := s.step_i + 1,
    current_eps_threshold :=
      if s.step_i + 1 = 0 then s.current_eps_threshold
      else eps_threshold s.exploration_spec s.divide_by_zero_safety ((s.step_i + 1 : ℕ) : ℝ) }

/-- Modelled from the spec: the repository's replay memory implementation is
not among the source files (the configs only call `U.ReplayBuffer(capacity)`).
Following spec sections 3 and 4.1, a `ReplayMemory` is a fixed integer
`capacity` together with the currently stored entries in insertion order. -/
structure ReplayMemory (α : Type) where
  capacity : ℕ
  data : List α
deriving DecidableEq, Repr

/-- Modelled from the spec: a freshly constructed, empty replay memory of the
given capacity. -/
def ReplayMemory.mk_empty (α : Type) (capacity : ℕ) : ReplayMemory α :=
  ⟨capacity, []⟩

/-- Modelled from the spec (section 4.1): `add(transition)` appends the new
entry and, when the memory is at capacity, evicts the oldest entry
(ring-buffer semantics); it never fails.  Dropping
`data.length + 1 - capacity` oldest entries keeps exactly the most recent
`capacity` entries (for a memory maintained through `add` the drop count is 0
below capacity and 1 at capacity). -/
def ReplayMemory.add {α : Type} (m : ReplayMemory α) (x : α) : ReplayMemory α :=
  ⟨m.capacity, (m.data ++ [x]).drop (m.data.length + 1 - m.capacity)⟩

/-- Modelled from the spec: `size()` returns the current length. -/
def ReplayMemory.size {α : Type} (m : ReplayMemory α) : ℕ :=
  m.data.length

/-- A sequence of `add` calls, oldest first. -/
def ReplayMemory.add_all {α : Type} (m : ReplayMemory α) (xs : List α) : ReplayMemory α :=
  xs.foldl ReplayMemory.add m

/-- Modelled from the spec: the error `sample(batch_size)` raises when fewer
than `batch_size` entries are stored. -/
inductive ReplayMemoryError where
  | insufficientData
deriving DecidableEq, Repr

/-- Modelled from the spec (section 4.1): `sample(batch_size)` fails with
`InsufficientDataError` when fewer than `batch_size` entries are stored, and
otherwise returns `batch_size` entries drawn independently and uniformly with
replacement from the currently stored entries.  The random draws are made
explicit as a stream `draws` of natural numbers reduced modulo the current
length, so every draw indexes a stored entry. -/
def ReplayMemory.sample {α : Type} [Inhabited α] (m : ReplayMemory α)
    (batch_size : ℕ) (draws : ℕ → ℕ) : Except ReplayMemoryError (List α) :=
  if m.data.length < batch_size then .error .insufficientData
  else .ok ((List.range batch_size).map fun i => m.data.getD (draws i % m.data.length) default)

/-- Modelled from the spec (sections 4.4 and 8): the bootstrapped regression
target of a value update, `reward + gamma * (1 - terminal) * target_value`,
with the boolean `terminal` flag read as 1 when true and 0 when false.  The
`ValueAgent` update code computing it is not among the source files. -/
def td_target (reward discount : ℝ) (terminal : Bool) (target_value : ℝ) : ℝ :=
  reward + discount * (1 - (if terminal then (1 : ℝ) else 0)) * target_value

/-- The per-episode rollout loop of `ActorCriticAgent.rollout`
(actor_critic_agent.py lines 193-226) and `EVOAgent.rollout` (evo_agent.py
lines 40-52): iterate `t = 1, 2, 3, ...` (`for t in count(1)`) and exit with
episode length `t` exactly when the snapshot of step `t` reports
`terminated.all()`; the loop body contains no other `break`.  `terminated_all t`
abstracts the environment's reply at iteration `t`; `fuel` bounds how many
iterations are observed, `none` meaning the loop is still running after `fuel`
iterations. -/
def rollout_loop (terminated_all : ℕ → Bool) : ℕ → ℕ → Option ℕ
  | 0, _ => none
  | fuel + 1, t => if terminated_all t then some t else rollout_loop terminated_all fuel (t + 1)

/-- The rollout loop started at `t = 1` as in the source. -/
def rollout_episode_length (terminated_all : ℕ → Bool) (fuel : ℕ) : Option ℕ :=
  rollout_loop terminated_all fuel 1

/-- The episode loop body of `train_episodically` (episodically.py): for each
episode index the agent performs one rollout, then `agent.end_training` is
checked and the loop breaks when it is set.  Returns how many episodes were
executed on the given list of episode indices. -/
def episode_loop (end_training : ℕ → Bool) : List ℕ → ℕ
  | [] => 0
  | e :: rest => if end_training e then 1 else 1 + episode_loop end_training rest

/-- Number of episodes `train_episodically(..., rollouts:=n, ...)` executes
(neodroidagent/training/procedures/episodically.py lines 45-69 and
agent/training/procedures/episodically.py lines 39-63): the loop iterates over
`range(1, rollouts)`, i.e. the indices `1, ..., rollouts - 1`, breaking early
when `agent.end_training` is set after an episode. -/
def train_episodically_episodes (rollouts : ℕ) (end_training : ℕ → Bool) : ℕ :=
  episode_loop end_training (List.range' 1 (rollouts - 1))

/-! ### Replay memory lemmas -/

theorem ReplayMemory.add_capacity {α : Type} (m : ReplayMemory α) (x : α) :
    (m.add x).capacity = m.capacity := rfl

theorem ReplayMemory.add_all_capacity {α : Type} (xs : List α) :
    ∀ m : ReplayMemory α, (m.add_all xs).capacity = m.capacity := by
  induction xs with
  | nil => intro m; rfl
  | cons x xs ih => intro m; exact (ih (m.add x)).trans rfl

theorem ReplayMemory.add_all_data {α : Type} (xs : List α) :
    ∀ m : ReplayMemory α, m.data.length ≤ m.capacity →
      (m.add_all xs).data = (m.data ++ xs).drop (m.data.length + xs.length - m.capacity) := by
  induction xs with
  | nil =>
      intro m h
      simp only [ReplayMemory.add_all, List.foldl_nil, List.append_nil, List.length_nil]
      rw [show m.data.length + 0 - m.capacity = 0 by omega, List.drop_zero]
  | cons x xs ih =>
      intro m h
      have hadd : (m.add x).data = (m.data ++ [x]).drop (m.data.length + 1 - m.capacity) := rfl
      have hlen : (m.add x).data.length ≤ (m.add x).capacity := by
        rw [hadd, ReplayMemory.add_capacity, List.length_drop, List.length_append,
          List.length_singleton]
        omega
      have step : (m.add_all (x :: xs)) = ((m.add x).add_all xs) := rfl
      have hassoc : m.data ++ x :: xs = (m.data ++ [x]) ++ xs := by simp
      rw [step, ih (m.add x) hlen, hadd, ReplayMemory.add_capacity, List.length_drop,
        List.length_append, List.length_singleton, hassoc]
      simp only [List.drop_append_eq_append_drop, List.drop_drop, List.length_drop,
        List.length_append, List.length_singleton, List.length_cons, List.length_nil]
      congr 1
      · congr 1
        · congr 1
          omega
        · congr 1
          omega
      · congr 1
        omega

theorem ReplayMemory.mk_empty_add_all_data {α : Type} (c : ℕ) (xs : List α) :
    ((ReplayMemory.mk_empty α c).add_all xs).data = xs.drop (xs.length - c) := by
  have h := ReplayMemory.add_all_data xs (ReplayMemory.mk_empty α c) (by simp [ReplayMemory.mk_empty])
  simpa [ReplayMemory.mk_empty] using h

theorem ReplayMemory.mk_empty_add_all_size {α : Type} (c : ℕ) (xs : List α) :
    ((ReplayMemory.mk_empty α c).add_all xs).size = min c xs.length := by
  rw [ReplayMemory.size, ReplayMemory.mk_empty_add_all_data, List.length_drop]
  omega

/-- C3: for every sequence of `add` calls on a replay memory with fixed
capacity `c` the stored length never exceeds `c`, and after more than `c`
adds the size is exactly `c` and the retained entries are exactly the most
recent `c` insertions in insertion order. -/
theorem replay_memory_ring_buffer {α : Type} (c : ℕ) (xs : List α)
    (h : c < xs.length) :
    (∀ ys : List α, ((ReplayMemory.mk_empty α c).add_all ys).size ≤ c) ∧
    ((ReplayMemory.mk_empty α c).add_all xs).size = c ∧
    ((ReplayMemory.mk_empty α c).add_all xs).data = xs.drop (xs.length - c) := by
  refine ⟨fun ys => ?_, ?_, ReplayMemory.mk_empty_add_all_data c xs⟩
  · rw [ReplayMemory.mk_empty_add_all_size]; omega
  · rw [ReplayMemory.mk_empty_add_all_size]; omega

/-- C3 witness: the spec's end-to-end scenario, a capacity-3 memory receiving
A, B, C, D retains exactly B, C, D in order. -/
theorem replay_memory_ring_buffer_witness :
    (∀ ys : List ℕ, ((ReplayMemory.mk_empty ℕ 3).add_all ys).size ≤ 3) ∧
    ((ReplayMemory.mk_empty ℕ 3).add_all [1, 2, 3, 4]).size = 3 ∧
    ((ReplayMemory.mk_empty ℕ 3).add_all [1, 2, 3, 4]).data = [2, 3, 4] := by
  have h := replay_memory_ring_buffer 3 [1, 2, 3, 4] (by decide)
  exact ⟨h.1, h.2.1, by simpa using h.2.2⟩

/-- C4: `sample(batch_size)` fails with `InsufficientDataError` exactly when
fewer than `batch_size` entries are stored; with at least `batch_size` entries
it succeeds and every returned entry is one of the currently stored
transitions. -/
theorem replay_memory_sample_spec {α : Type} [Inhabited α] (m : ReplayMemory α)
    (batch_size : ℕ) (draws : ℕ → ℕ) :
    (m.sample batch_size draws = .error .insufficientData ↔ m.size < batch_size) ∧
    (batch_size ≤ m.size →
      ∃ l : List α, m.sample batch_size draws = .ok l ∧ l.length = batch_size ∧
        ∀ y ∈ l, y ∈ m.data) := by
  constructor
  · unfold ReplayMemory.sample ReplayMemory.size
    split
    · next hlt => simpa using hlt
    · next hge => simp only [reduceCtorEq, false_iff]; omega
  · intro hle
    rw [ReplayMemory.size] at hle
    refine ⟨(List.range batch_size).map fun i => m.data.getD (draws i % m.data.length) default,
      ?_, by simp, ?_⟩
    · unfold ReplayMemory.sample
      rw [if_neg (by omega)]
    · intro y hy
      obtain ⟨i, hi, rfl⟩ := List.mem_map.1 hy
      have hipos : i < batch_size := List.mem_range.1 hi
      have hlen : 0 < m.data.length := by omega
      have hmod : draws i % m.data.length < m.data.length := Nat.mod_lt _ hlen
      rw [List.getD_eq_getElem m.data default hmod]
      exact List.getElem_mem hmod

/-- C5: for a terminal transition the value-update regression target is
exactly the reward; the bootstrap term `discount * (1 - terminal) *
target_value` vanishes identically, whatever the target model outputs. -/
theorem td_target_terminal (reward discount target_value : ℝ) :
    td_target reward discount true target_value = reward := by
  simp [td_target]

/-- C7: with random sampling disallowed (`disallow_random_sample=True`, the
EVALUATING case), `ValueAgent.sample` takes the greedy model branch whatever
the step counter and the uniform draw are; the random-exploration branch is
unreachable. -/
theorem sample_disallow_returns_model (spec : ExplorationSpecification) (safety : ℝ)
    (initial_observation_period step_i : ℕ) (sample : ℝ) :
    sample_returns_model spec safety initial_observation_period true step_i sample :=
  Or.inr rfl

/-! ### Rollout termination lemmas -/

theorem rollout_loop_none_iff (terminated_all : ℕ → Bool) :
    ∀ fuel t, rollout_loop terminated_all fuel t = none ↔
      ∀ s, t ≤ s → s < t + fuel → terminated_all s = false := by
  intro fuel
  induction fuel with
  | zero =>
      intro t
      simp only [rollout_loop, true_iff]
      intro s h1 h2
      omega
  | succ fuel ih =>
      intro t
      rw [rollout_loop]
      by_cases henv : terminated_all t = true
      · rw [if_pos henv]
        constructor
        · intro hcontra
          exact absurd hcontra (by simp)
        · intro hall
          have hft := hall t le_rfl (by omega)
          rw [henv] at hft
          exact absurd hft (by decide)
      · have henv' : terminated_all t = false := by
          cases hb : terminated_all t
          · rfl
          · exact absurd hb henv
        rw [if_neg henv, ih (t + 1)]
        constructor
        · intro h s h1 h2
          rcases Nat.eq_or_lt_of_le h1 with rfl | hlt
          · exact henv'
          · exact h s hlt (by omega)
        · intro h s h1 h2
          exact h s (by omega) (by omega)

theorem rollout_loop_some (terminated_all : ℕ → Bool) :
    ∀ fuel t t', rollout_loop terminated_all fuel t = some t' →
      terminated_all t' = true ∧ ∀ s, t ≤ s → s < t' → terminated_all s = false := by
  intro fuel
  induction fuel with
  | zero => intro t t' h; simp [rollout_loop] at h
  | succ fuel ih =>
      intro t t' h
      rw [rollout_loop] at h
      by_cases henv : terminated_all t = true
      · rw [if_pos henv, Option.some_inj] at h
        subst h
        exact ⟨henv, fun s h1 h2 => by omega⟩
      · have henv' : terminated_all t = false := by
          cases hb : terminated_all t
          · rfl
          · exact absurd hb henv
        rw [if_neg henv] at h
        obtain ⟨hterm, hfirst⟩ := ih (t + 1) t' h
        refine ⟨hterm, fun s h1 h2 => ?_⟩
        rcases Nat.eq_or_lt_of_le h1 with rfl | hlt
        · exact henv'
        · exact hfirst s hlt h2

/-- C6 amended: the per-episode rollout loop exits exactly at the first step
at which the environment reports terminal for all tracked sub-environments;
there is no per-episode step cap, so within any iteration budget the loop is
still running if and only if no step so far reported all-terminal. -/
theorem rollout_loop_exits_only_on_terminal (terminated_all : ℕ → Bool) (fuel : ℕ) :
    (rollout_episode_length terminated_all fuel = none ↔
      ∀ t, 1 ≤ t → t < 1 + fuel → terminated_all t = false) ∧
    (∀ t, rollout_episode_length terminated_all fuel = some t →
      terminated_all t = true ∧ ∀ s, 1 ≤ s → s < t → terminated_all s = false) :=
  ⟨rollout_loop_none_iff terminated_all fuel 1,
    fun t h => rollout_loop_some terminated_all fuel 1 t h⟩

/-- C6 counterexample: against an environment that never reports all-terminal
the loop never exits — no iteration budget produces an episode length, because
the loop's only exit is the `terminated.all()` break and the code has no
per-episode step cap. -/
theorem rollout_no_step_cap :
    ¬ ∃ fuel t, rollout_episode_length (fun _ => false) fuel = some t := by
  rintro ⟨fuel, t, h⟩
  have hterm := (rollout_loop_some (fun _ => false) fuel 1 t h).1
  simp at hterm

/-! ### Sample frame lemmas -/

/-- C8 amended: one call of `ValueAgent.sample` mutates exactly the agent's
step counter `_step_i` (incremented by 1) and the scheduler threshold
`_current_eps_threshold`; every other agent field — shapes, rollout counter,
end-of-training flag, safety constant, exploration parameters, observation
period and the value model — is left unchanged, and the successor state does
not depend on the uniform draw. -/
theorem value_agent_sample_step_frame {M : Type} (s : ValueAgentState M) (r : ℝ) :
    (value_agent_sample_step s r).step_i = s.step_i + 1 ∧
    (value_agent_sample_step s r).current_eps_threshold =
      eps_threshold s.exploration_spec s.divide_by_zero_safety ((s.step_i + 1 : ℕ) : ℝ) ∧
    (value_agent_sample_step s r).input_shape = s.input_shape ∧
    (value_agent_sample_step s r).output_shape = s.output_shape ∧
    (value_agent_sample_step s r).rollout_i = s.rollout_i ∧
    (value_agent_sample_step s r).end_training = s.end_training ∧
    (value_agent_sample_step s r).divide_by_zero_safety = s.divide_by_zero_safety ∧
    (value_agent_sample_step s r).exploration_spec = s.exploration_spec ∧
    (value_agent_sample_step s r).initial_observation_period = s.initial_observation_period ∧
    (value_agent_sample_step s r).value_model = s.value_model ∧
    (∀ r' : ℝ, value_agent_sample_step s r = value_agent_sample_step s r') := by
  refine ⟨rfl, ?_, rfl, rfl, rfl, rfl, rfl, rfl, rfl, rfl, fun r' => rfl⟩
  simp [value_agent_sample_step]

/-- A concrete `ValueAgent` state about to take its first sample: the
defaults of `Agent.__init__` (`_step_i = 0`, `_rollout_i = 0`,
`_end_training = False`, `_divide_by_zero_safety = 1e-10`) and of
`ValueAgent.__init__` (`ExplorationSpecification(start=0.99, end=0.04,
decay=10000)`, `_initial_observation_period = 0`). -/
noncomputable def initial_value_agent_state : ValueAgentState Unit :=
  { input_shape := .unset, output_shape := .unset, step_i := 0, rollout_i := 0,
    end_training := false, divide_by_zero_safety := 1e-10,
    exploration_spec := ⟨0.99, 0.04, 10000⟩, initial_observation_period := 0,
    current_eps_threshold := 0, value_model := () }

/-- C8 counterexample: `ValueAgent.sample` is not pure up to scheduler-internal
state — it increments the agent-level step counter `_step_i` (a field
`Agent.__init__` owns and the rollout procedures also read), so an agent field
outside the exploration scheduler changes across the call. -/
theorem value_agent_sample_mutates_step_counter :
    (value_agent_sample_step initial_value_agent_state 0).step_i ≠
      initial_value_agent_state.step_i := by
  simp [value_agent_sample_step, initial_value_agent_state]

/-! ### Shape inference lemmas -/

theorem infer_input_shape_is_dims (cur : ShapeField) (env : EnvSpec) :
    (∃ l, infer_input_shape cur env = .dims l) ∨ infer_input_shape cur env = cur := by
  unfold infer_input_shape
  split
  · split
    · exact Or.inl ⟨_, rfl⟩
    · exact Or.inl ⟨_, rfl⟩
  · exact Or.inr rfl

theorem infer_input_shape_of_set (cur : ShapeField) (env : EnvSpec)
    (h1 : cur ≠ .unset) (h2 : cur ≠ .minusOne) : infer_input_shape cur env = cur := by
  unfold infer_input_shape
  rw [if_neg]
  rintro (h | h) <;> [exact h1 h; exact h2 h]

theorem infer_output_shape_of_set (cur : ShapeField) (env : EnvSpec)
    (h1 : cur ≠ .unset) (h2 : cur ≠ .minusOne) : infer_output_shape cur env = cur := by
  unfold infer_output_shape
  rw [if_neg]
  rintro (h | h) <;> [exact h1 h; exact h2 h]

theorem infer_input_shape_ne (cur : ShapeField) (env : EnvSpec) :
    infer_input_shape cur env ≠ .unset ∧ infer_input_shape cur env ≠ .minusOne ∨
      infer_input_shape cur env = cur := by
  unfold infer_input_shape
  split
  · split <;> exact Or.inl ⟨by simp, by simp⟩
  · exact Or.inr rfl

theorem maybe_infer_of_set (a : AgentShapes) (env : EnvSpec)
    (h1 : a.input_shape ≠ .unset) (h2 : a.input_shape ≠ .minusOne)
    (h3 : a.output_shape ≠ .unset) (h4 : a.output_shape ≠ .minusOne) :
    maybe_infer_input_output_shapes a env = a := by
  unfold maybe_infer_input_output_shapes
  rw [infer_input_shape_of_set a.input_shape env h1 h2,
    infer_output_shape_of_set a.output_shape env h3 h4]

theorem infer_input_shape_unset_ne (env : EnvSpec) :
    infer_input_shape .unset env ≠ .unset ∧ infer_input_shape .unset env ≠ .minusOne := by
  unfold infer_input_shape
  split
  · split <;> exact ⟨by simp, by simp⟩
  · next h => exact absurd (Or.inl rfl) h

theorem infer_output_shape_unset_ne (env : EnvSpec) :
    infer_output_shape .unset env ≠ .unset ∧ infer_output_shape .unset env ≠ .minusOne := by
  unfold infer_output_shape
  split
  · cases env.action_space with
    | actionSpace d k n => cases d <;> exact ⟨by simp, by simp⟩
    | generic shape n =>
        dsimp only
        split <;> exact ⟨by simp, by simp⟩
  · next h => exact absurd (Or.inl rfl) h

/-- C9 amended: `build` infers the input and output shapes only while they are
unset (`None` or `-1`): the first call on an unbuilt agent sets both from the
environment, and any later call — in particular one with a conflicting
environment — does not fail (the inference path raises nothing) and leaves the
previously inferred shapes unchanged. -/
theorem build_shape_inference_once (a : AgentShapes) (env env' : EnvSpec)
    (h1 : a.input_shape ≠ .unset) (h2 : a.input_shape ≠ .minusOne)
    (h3 : a.output_shape ≠ .unset) (h4 : a.output_shape ≠ .minusOne) :
    maybe_infer_input_output_shapes a env = a ∧
    maybe_infer_input_output_shapes
        (maybe_infer_input_output_shapes ⟨.unset, .unset⟩ env') env =
      maybe_infer_input_output_shapes ⟨.unset, .unset⟩ env' := by
  refine ⟨maybe_infer_of_set a env h1 h2 h3 h4, maybe_infer_of_set _ env ?_ ?_ ?_ ?_⟩
  · exact (infer_input_shape_unset_ne env').1
  · exact (infer_input_shape_unset_ne env').2
  · exact (infer_output_shape_unset_ne env').1
  · exact (infer_output_shape_unset_ne env').2

/-- C9 witness: a built agent with shapes `(4,)` and `(2, 1)` keeps them across
a further `build` against a conflicting environment, and a fresh agent built
once is immune to a second conflicting build. -/
theorem build_shape_inference_once_witness :
    maybe_infer_input_output_shapes ⟨.dims [4], .dims [2, 1]⟩
        ⟨⟨[7], 0⟩, .actionSpace true 5 5⟩ = ⟨.dims [4], .dims [2, 1]⟩ ∧
    maybe_infer_input_output_shapes
        (maybe_infer_input_output_shapes ⟨.unset, .unset⟩ ⟨⟨[4], 0⟩, .actionSpace true 2 2⟩)
        ⟨⟨[7], 0⟩, .actionSpace true 5 5⟩ =
      maybe_infer_input_output_shapes ⟨.unset, .unset⟩ ⟨⟨[4], 0⟩, .actionSpace true 2 2⟩ :=
  build_shape_inference_once ⟨.dims [4], .dims [2, 1]⟩ ⟨⟨[7], 0⟩, .actionSpace true 5 5⟩
    ⟨⟨[4], 0⟩, .actionSpace true 2 2⟩ (by decide) (by decide) (by decide) (by decide)

/-- C9 counterexample: a second invocation of `build` with conflicting shapes
does not fail — `_maybe_infer_input_output_shapes` raises nothing and simply
skips inference because the shapes are already set, keeping the first
environment's shapes (here `(4,)`, not the second environment's `(7,)`). -/
theorem build_twice_conflicting_no_failure :
    maybe_infer_input_output_shapes
        (maybe_infer_input_output_shapes ⟨.unset, .unset⟩ ⟨⟨[4], 0⟩, .actionSpace true 2 2⟩)
        ⟨⟨[7], 0⟩, .actionSpace true 5 5⟩ =
      maybe_infer_input_output_shapes ⟨.unset, .unset⟩ ⟨⟨[4], 0⟩, .actionSpace true 2 2⟩ ∧
    maybe_infer_input_output_shapes ⟨.unset, .unset⟩ ⟨⟨[4], 0⟩, .actionSpace true 2 2⟩ ≠
      maybe_infer_input_output_shapes ⟨.unset, .unset⟩ ⟨⟨[7], 0⟩, .actionSpace true 5 5⟩ := by
  constructor
  · decide
  · decide

/-! ### Episode count lemmas -/

theorem episode_loop_le_length (end_training : ℕ → Bool) :
    ∀ l : List ℕ, episode_loop end_training l ≤ l.length := by
  intro l
  induction l with
  | nil => simp [episode_loop]
  | cons e rest ih =>
      rw [episode_loop, List.length_cons]
      split
      · omega
      · omega

theorem episode_loop_no_break (end_training : ℕ → Bool)
    (h : ∀ i, end_training i = false) :
    ∀ l : List ℕ, episode_loop end_training l = l.length := by
  intro l
  induction l with
  | nil => rfl
  | cons e rest ih =>
      rw [episode_loop, if_neg (by simp [h]), ih, List.length_cons]
      omega

/-- C10: with `rollouts = n >= 1`, `train_episodically` executes at most
`n - 1` episodes — strictly fewer than `n` — and exactly `n - 1` when the
end-of-training flag never fires, because its loop iterates over
`range(1, rollouts)`. -/
theorem train_episodically_episode_count (n : ℕ) (end_training : ℕ → Bool)
    (h : 1 ≤ n) :
    train_episodically_episodes n end_training ≤ n - 1 ∧
    train_episodically_episodes n end_training < n ∧
    ((∀ i, end_training i = false) → train_episodically_episodes n end_training = n - 1) := by
  have hlen : (List.range' 1 (n - 1)).length = n - 1 := by simp
  have hle : train_episodically_episodes n end_training ≤ n - 1 := by
    have h2 := episode_loop_le_length end_training (List.range' 1 (n - 1))
    rw [hlen] at h2
    exact h2
  exact ⟨hle, by omega, fun hfalse => by
    rw [train_episodically_episodes, episode_loop_no_break end_training hfalse, hlen]⟩

/-- C10 witness: with `rollouts = 5` and the end-of-training flag never set,
exactly 4 episodes run. -/
theorem train_episodically_episode_count_witness :
    train_episodically_episodes 5 (fun _ => false) ≤ 4 ∧
    train_episodically_episodes 5 (fun _ => false) < 5 ∧
    ((∀ i : ℕ, (fun _ : ℕ => false) i = false) →
      train_episodically_episodes 5 (fun _ => false) = 4) :=
  train_episodically_episode_count 5 (fun _ => false) (by decide)

/-! ### Epsilon schedule lemmas -/

theorem eps_threshold_le_start (spec : ExplorationSpecification) (safety : ℝ)
    (hse : spec.«end» ≤ spec.start) (hd : 0 < spec.decay + safety) (t : ℝ) (ht : 0 ≤ t) :
    eps_threshold spec safety t ≤ spec.start := by
  have hexp : Real.exp (-1 * t / (spec.decay + safety)) ≤ 1 := by
    rw [Real.exp_le_one_iff]
    apply div_nonpos_of_nonpos_of_nonneg
    · linarith
    · exact hd.le
  have hmul := mul_le_mul_of_nonneg_left hexp (sub_nonneg.2 hse)
  calc eps_threshold spec safety t
      = spec.«end» + (spec.start - spec.«end») * Real.exp (-1 * t / (spec.decay + safety)) := rfl
    _ ≤ spec.«end» + (spec.start - spec.«end») * 1 := by linarith
    _ = spec.start := by ring

theorem end_le_eps_threshold (spec : ExplorationSpecification) (safety : ℝ)
    (hse : spec.«end» ≤ spec.start) (t : ℝ) :
    spec.«end» ≤ eps_threshold spec safety t := by
  have hmul : 0 ≤ (spec.start - spec.«end») * Real.exp (-1 * t / (spec.decay + safety)) :=
    mul_nonneg (sub_nonneg.2 hse) (Real.exp_pos _).le
  calc spec.«end» ≤ spec.«end» + (spec.start - spec.«end») *
        Real.exp (-1 * t / (spec.decay + safety)) := by linarith
    _ = eps_threshold spec safety t := rfl

theorem eps_threshold_antitone (spec : ExplorationSpecification) (safety : ℝ)
    (hse : spec.«end» ≤ spec.start) (hd : 0 < spec.decay + safety) :
    Antitone (eps_threshold spec safety) := by
  intro t1 t2 hle
  have hexp : Real.exp (-1 * t2 / (spec.decay + safety)) ≤
      Real.exp (-1 * t1 / (spec.decay + safety)) := by
    rw [Real.exp_le_exp]
    rw [div_le_div_iff_of_pos_right hd]
    linarith
  have hmul := mul_le_mul_of_nonneg_left hexp (sub_nonneg.2 hse)
  show spec.«end» + (spec.start - spec.«end») * Real.exp (-1 * t2 / (spec.decay + safety)) ≤
    spec.«end» + (spec.start - spec.«end») * Real.exp (-1 * t1 / (spec.decay + safety))
  linarith

theorem eps_threshold_tendsto (spec : ExplorationSpecification) (safety : ℝ)
    (hd : 0 < spec.decay + safety) :
    Filter.Tendsto (eps_threshold spec safety) Filter.atTop (nhds spec.«end») := by
  have h1 : Filter.Tendsto (fun t : ℝ => t / (spec.decay + safety))
      Filter.atTop Filter.atTop := Filter.Tendsto.atTop_div_const hd Filter.tendsto_id
  have h2 := Filter.tendsto_neg_atTop_atBot.comp h1
  have harg : Filter.Tendsto (fun t : ℝ => -1 * t / (spec.decay + safety))
      Filter.atTop Filter.atBot := by
    refine h2.congr fun t => ?_
    show -(t / (spec.decay + safety)) = -1 * t / (spec.decay + safety)
    ring
  have hexp := Real.tendsto_exp_atBot.comp harg
  have hmul := hexp.const_mul (spec.start - spec.«end»)
  have hadd := hmul.const_add spec.«end»
  simp only [mul_zero, add_zero] at hadd
  exact hadd.congr fun t => rfl

/-- C2: for schedule parameters with `start >= end >= 0`, `decay > 0` and a
nonnegative safety constant, the computed epsilon threshold is exactly
`end + (start - end) * exp(-t / (decay + safety))`; consequently the
threshold at step 0 equals `start`, the threshold is monotonically
non-increasing in `t`, and it tends to `end` as `t` grows without bound. -/
theorem epsilon_schedule_spec (spec : ExplorationSpecification) (safety : ℝ)
    (h0 : 0 ≤ spec.«end») (hse : spec.«end» ≤ spec.start)
    (hdecay : 0 < spec.decay) (hsafety : 0 ≤ safety) :
    (∀ t : ℝ, eps_threshold spec safety t =
        spec.«end» + (spec.start - spec.«end») *
          Real.exp (-(t / (spec.decay + safety)))) ∧
    eps_threshold spec safety 0 = spec.start ∧
    Antitone (eps_threshold spec safety) ∧
    Filter.Tendsto (eps_threshold spec safety) Filter.atTop (nhds spec.«end») := by
  have hd : 0 < spec.decay + safety := by linarith
  refine ⟨fun t => ?_, ?_, eps_threshold_antitone spec safety hse hd,
    eps_threshold_tendsto spec safety hd⟩
  · show spec.«end» + (spec.start - spec.«end») * Real.exp (-1 * t / (spec.decay + safety)) = _
    rw [show -1 * t / (spec.decay + safety) = -(t / (spec.decay + safety)) from by ring]
  · show spec.«end» + (spec.start - spec.«end») * Real.exp (-1 * 0 / (spec.decay + safety)) = _
    rw [show -1 * (0 : ℝ) / (spec.decay + safety) = 0 from by ring, Real.exp_zero]
    ring

/-- C2 witness: the spec's end-to-end schedule `start=1.0, end=0.04,
decay=400` with the source's safety constant `1e-10` satisfies the formula,
starts at `1.0`, decreases monotonically and tends to `0.04`. -/
theorem epsilon_schedule_spec_witness :
    (∀ t : ℝ, eps_threshold ⟨1, 0.04, 400⟩ (1e-10) t =
        (0.04 : ℝ) + ((1 : ℝ) - 0.04) * Real.exp (-(t / ((400 : ℝ) + 1e-10)))) ∧
    eps_threshold ⟨1, 0.04, 400⟩ (1e-10) 0 = (1 : ℝ) ∧
    Antitone (eps_threshold ⟨1, 0.04, 400⟩ (1e-10)) ∧
    Filter.Tendsto (eps_threshold ⟨1, 0.04, 400⟩ (1e-10)) Filter.atTop (nhds (0.04 : ℝ)) :=
  epsilon_schedule_spec ⟨1, 0.04, 400⟩ (1e-10) (by norm_num) (by norm_num)
    (by norm_num) (by norm_num)

/-! ### Exploration branch probability -/

theorem explore_event_eq (spec : ExplorationSpecification) (safety : ℝ)
    (initial_observation_period t : ℕ)
    (hse : spec.«end» ≤ spec.start) (hs1 : spec.start < 1)
    (hd : 0 < spec.decay + safety) (ht : 1 ≤ t) (hp : initial_observation_period < t) :
    {r : ℝ | r ∈ Set.Ico (0 : ℝ) 1 ∧
        ¬ sample_returns_model spec safety initial_observation_period false t r} =
      Set.Icc 0 (eps_threshold spec safety (t : ℝ)) := by
  have hle : eps_threshold spec safety (t : ℝ) ≤ spec.start :=
    eps_threshold_le_start spec safety hse hd (t : ℝ) (Nat.cast_nonneg t)
  ext r
  simp only [Set.mem_setOf_eq, Set.mem_Ico, Set.mem_Icc, sample_returns_model,
    epsilon_random_exploration]
  constructor
  · rintro ⟨⟨hr0, _⟩, hn⟩
    refine ⟨hr0, ?_⟩
    by_contra hgt
    push_neg at hgt
    exact hn (Or.inl ⟨⟨by omega, hgt⟩, hp⟩)
  · rintro ⟨hr0, hrle⟩
    refine ⟨⟨hr0, lt_of_le_of_lt hrle (lt_of_le_of_lt hle hs1)⟩, ?_⟩
    rintro (⟨⟨-, hgt⟩, -⟩ | hff)
    · exact absurd hrle (not_le.2 hgt)
    · exact Bool.false_ne_true hff

/-- C1 amended: `epsilon_random_exploration` reports `True` exactly when the
uniform draw exceeds `epsilon(t)`, and on `True` `ValueAgent.sample` (past the
observation period, with random sampling allowed) takes the greedy model
branch; the random-exploration branch is therefore taken exactly when the
draw is at most `epsilon(t)`, so its probability under the uniform `[0,1)`
draw is `epsilon(t)`, not `1 - epsilon(t)`. -/
theorem exploration_probability_eq_eps (spec : ExplorationSpecification) (safety : ℝ)
    (initial_observation_period t : ℕ)
    (h0 : 0 ≤ spec.«end») (hse : spec.«end» ≤ spec.start) (hs1 : spec.start < 1)
    (hd : 0 < spec.decay + safety) (ht : 1 ≤ t) (hp : initial_observation_period < t) :
    (∀ r : ℝ, sample_returns_model spec safety initial_observation_period false t r ↔
        r > eps_threshold spec safety (t : ℝ)) ∧
    MeasureTheory.volume
        {r : ℝ | r ∈ Set.Ico (0 : ℝ) 1 ∧
          ¬ sample_returns_model spec safety initial_observation_period false t r} =
      ENNReal.ofReal (eps_threshold spec safety (t : ℝ)) := by
  constructor
  · intro r
    simp only [sample_returns_model, epsilon_random_exploration]
    constructor
    · rintro (⟨⟨-, hgt⟩, -⟩ | hff)
      · exact hgt
      · exact absurd hff Bool.false_ne_true
    · intro hgt
      exact Or.inl ⟨⟨by omega, hgt⟩, hp⟩
  · rw [explore_event_eq spec safety initial_observation_period t hse hs1 hd ht hp,
      Real.volume_Icc, sub_zero]

/-- C1 witness: at step 5 of the schedule `start=0.99, end=0.04, decay=400`
(observation period 0, exploration allowed), the greedy branch is taken
exactly on draws above the threshold, and the exploration branch has
probability equal to the threshold. -/
theorem exploration_probability_eq_eps_witness :
    (∀ r : ℝ, sample_returns_model ⟨0.99, 0.04, 400⟩ (1e-10) 0 false 5 r ↔
        r > eps_threshold ⟨0.99, 0.04, 400⟩ (1e-10) ((5 : ℕ) : ℝ)) ∧
    MeasureTheory.volume
        {r : ℝ | r ∈ Set.Ico (0 : ℝ) 1 ∧
          ¬ sample_returns_model ⟨0.99, 0.04, 400⟩ (1e-10) 0 false 5 r} =
      ENNReal.ofReal (eps_threshold ⟨0.99, 0.04, 400⟩ (1e-10) ((5 : ℕ) : ℝ)) :=
  exploration_probability_eq_eps ⟨0.99, 0.04, 400⟩ (1e-10) 0 5 (by norm_num) (by norm_num)
    (by norm_num) (by norm_num) (by norm_num) (by norm_num)

/-- C1 counterexample: for the schedule `start = end = 3/4` the threshold is
exactly `3/4` at every step, and the set of uniform draws on which
`ValueAgent.sample` takes the random-exploration branch has measure
`3/4 = epsilon(t)`, not `1 - epsilon(t) = 1/4` as the claim states — a draw
with `sample > epsilon` selects the greedy model branch, not exploration. -/
theorem exploration_probability_not_inverted :
    MeasureTheory.volume
        {r : ℝ | r ∈ Set.Ico (0 : ℝ) 1 ∧
          ¬ sample_returns_model ⟨3/4, 3/4, 1⟩ 0 0 false 1 r} ≠
      ENNReal.ofReal (1 - eps_threshold ⟨3/4, 3/4, 1⟩ 0 ((1 : ℕ) : ℝ)) := by
  have heps : eps_threshold (⟨3/4, 3/4, 1⟩ : ExplorationSpecification) 0 ((1 : ℕ) : ℝ) =
      3 / 4 := by
    show (3 / 4 : ℝ) + (3 / 4 - 3 / 4) * Real.exp _ = 3 / 4
    ring
  rw [explore_event_eq ⟨3/4, 3/4, 1⟩ 0 0 1 (by norm_num) (by norm_num) (by norm_num)
      (by norm_num) (by norm_num), Real.volume_Icc, sub_zero, heps]
  intro hcontra
  rw [ENNReal.ofReal_eq_ofReal_iff (by norm_num) (by norm_num)] at hcontra
  norm_num at hcontra
